import Mathlib

/- Shallow embedding of the pyronolimits client runtime
   (src/pyrogram_optimized): request batching (session_optimized.py),
   the TTL+LRU result cache and the connection pool
   (client_optimized.py), connection health tracking
   (connection_optimized.py), and the xor primitive
   (crypto_optimized.py).  Wall-clock instants and float-valued
   quantities are modelled as rationals; opaque Python objects
   (queries, cached values, exception payloads) as naturals. -/

namespace Pyro

/-! Request batching, from session_optimized.py. -/

/-- Successful outcome of a wire exchange: the base send either returns a
list of per-request results or a single aggregate value. -/
inductive ExchangeResult where
  | listRes (rs : List Nat)
  | value (r : Nat)
deriving DecidableEq

/-- Errors a pending future can be failed with: an exception raised by the
wire exchange, or the No-result-for-request exception raised when the
result list is shorter than the batch. -/
inductive BatchError where
  | exc (code : Nat)
  | noResult
deriving DecidableEq

/-- State of an asyncio.Future attached to a batched request. -/
inductive FutureState where
  | pending
  | resolved (v : ExchangeResult)
  | failed (e : BatchError)
deriving DecidableEq

/-- Outcome of the wire exchange performed for a batch: the base send
returned normally or raised. -/
inductive ExchangeOutcome where
  | ok (r : ExchangeResult)
  | raised (e : BatchError)
deriving DecidableEq

/-- RequestBatch from session_optimized.py: pending requests (query id
paired with its future) plus the configured size/age thresholds and the
creation instant. -/
structure RequestBatch where
  max_size : Nat
  max_wait : ℚ
  requests : List (Nat × FutureState)
  created_at : ℚ
deriving DecidableEq

/-- RequestBatch.add_request: append a request with a fresh pending
future. -/
def RequestBatch.add_request (b : RequestBatch) (query : Nat) : RequestBatch :=
  { b with requests := b.requests ++ [(query, FutureState.pending)] }

/-- RequestBatch.is_ready: the batch is ready when it holds at least
max_size requests or its age has reached max_wait. -/
def RequestBatch.is_ready (b : RequestBatch) (now : ℚ) : Bool :=
  decide (b.requests.length ≥ b.max_size) || decide (now - b.created_at ≥ b.max_wait)

/-- RequestBatch.is_empty. -/
def RequestBatch.is_empty (b : RequestBatch) : Bool :=
  b.requests.length == 0

/-- Future.set_exception is only called on futures that are not done:
a pending future is failed with the given error, a completed one is left
untouched. -/
def failIfPending (e : BatchError) : FutureState → FutureState
  | FutureState.pending => FutureState.failed e
  | s => s

/-- OptimizedSession._process_batch: given the outcome of the wire
exchange for the batch, distribute results to the member futures.  With
more than one request, a list result is distributed positionally (missing
positions are failed with the No-result exception) and a single aggregate
result is given to every member; with one request the result is handed to
its future; if the exchange raised, every future that is not yet done is
failed with that same exception. -/
def process_batch (b : RequestBatch) (outcome : ExchangeOutcome) : RequestBatch :=
  if b.requests.isEmpty then b
  else
    match outcome with
    | ExchangeOutcome.raised e =>
        { b with requests := b.requests.map (fun qf => (qf.1, failIfPending e qf.2)) }
    | ExchangeOutcome.ok res =>
        if b.requests.length > 1 then
          match res with
          | ExchangeResult.listRes rs =>
              { b with requests := b.requests.mapIdx (fun i qf =>
                  (qf.1, match rs[i]? with
                         | some r => FutureState.resolved (ExchangeResult.value r)
                         | none => FutureState.failed BatchError.noResult)) }
          | ExchangeResult.value r =>
              { b with requests := b.requests.map (fun qf =>
                  (qf.1, FutureState.resolved (ExchangeResult.value r))) }
        else
          { b with requests := b.requests.map (fun qf =>
              (qf.1, FutureState.resolved res)) }

/-! Adaptive timeout and flood-wait handling, from session_optimized.py. -/

/-- Class attribute OptimizedSession.WAIT_TIMEOUT. -/
def WAIT_TIMEOUT : ℚ := 30

/-- Class attribute OptimizedSession.ADAPTIVE_TIMEOUT. -/
def ADAPTIVE_TIMEOUT : Bool := true

/-- Bounded append modelling collections.deque with maxlen: append on the
right, discarding from the left once the length exceeds maxlen. -/
def pushBounded (maxlen : Nat) (l : List ℚ) (x : ℚ) : List ℚ :=
  let l2 := l ++ [x]
  l2.drop (l2.length - maxlen)

/-- Session state relevant to adaptive timeout and flood handling:
response_times is a deque with maxlen 100, flood_wait_history a deque of
flood-wait timestamps with maxlen 50. -/
structure OptimizedSession where
  response_times : List ℚ
  adaptive_wait_timeout : ℚ
  flood_wait_history : List ℚ
  flood_waits : Nat
  responses_received : Nat
  total_response_time : ℚ
  avg_response_time : ℚ
deriving DecidableEq

/-- The 95th-percentile selection used by _get_adaptive_timeout:
sorted_times[int(len(sorted_times) * 0.95)].  For the window lengths the
deque admits (at most 100) the float index int(len * 0.95) coincides with
len * 95 / 100 in integer arithmetic. -/
def percentile_95 (l : List ℚ) : ℚ :=
  let sorted_times := l.mergeSort (fun a b => decide (a ≤ b))
  sorted_times.getD (sorted_times.length * 95 / 100) 0

/-- OptimizedSession._get_adaptive_timeout: with adaptive timeouts off or
no recorded response times fall back to adaptive_wait_timeout, otherwise
take the 95th percentile of recent response times, scale by 3, floor at
WAIT_TIMEOUT and cap at 120. -/
def get_adaptive_timeout (s : OptimizedSession) : ℚ :=
  if !ADAPTIVE_TIMEOUT || s.response_times.isEmpty then s.adaptive_wait_timeout
  else
    min 120 (max WAIT_TIMEOUT (percentile_95 s.response_times * 3))

/-- OptimizedSession._update_response_metrics: record a response time in
the bounded window and update the counters. -/
def update_response_metrics (s : OptimizedSession) (response_time : ℚ) : OptimizedSession :=
  { s with
    response_times := pushBounded 100 s.response_times response_time,
    responses_received := s.responses_received + 1,
    total_response_time := s.total_response_time + response_time,
    avg_response_time :=
      (s.total_response_time + response_time) / (s.responses_received + 1) }

/-- Adaptive timeout as the specification words it: the 95th percentile of
the last 100 observed response latencies, scaled by 3, floored at the
configured base timeout and capped at 120 seconds. -/
def spec_adaptive_timeout (base : ℚ) (observed : List ℚ) : ℚ :=
  let window := observed.drop (observed.length - 100)
  min 120 (max base (percentile_95 window * 3))

/-- OptimizedSession._handle_flood_wait: record the flood wait timestamp
in the bounded history; when the history then holds more than 5 entries
and more than 3 of them fall within the trailing 300 seconds, multiply
the adaptive timeout by 1.5. -/
def handle_flood_wait (s : OptimizedSession) (now : ℚ) : OptimizedSession :=
  let s1 := { s with
    flood_waits := s.flood_waits + 1,
    flood_wait_history := pushBounded 50 s.flood_wait_history now }
  if s1.flood_wait_history.length > 5 then
    let recent_floods := s1.flood_wait_history.filter (fun ts => decide (now - ts < 300))
    if recent_floods.length > 3 then
      { s1 with adaptive_wait_timeout := s1.adaptive_wait_timeout * (3 / 2) }
    else s1
  else s1

/-! Result cache, from client_optimized.py. -/

/-- One cache entry: key, value and insertion timestamp.  The dict and
the access_order deque of OptimizedCache are kept in lockstep by the
code, so both are modelled by a single list ordered from least to most
recently used. -/
abbrev CacheEntry : Type := Nat × Nat × ℚ

/-- OptimizedCache state: the bound, the ttl and the entries in access
order (head least recently used). -/
structure OptimizedCache where
  max_size : Nat
  ttl : ℚ
  entries : List CacheEntry
deriving DecidableEq

/-- Fresh empty cache. -/
def mkCache (max_size : Nat) (ttl : ℚ) : OptimizedCache :=
  { max_size := max_size, ttl := ttl, entries := [] }

/-- Eviction loop of OptimizedCache.set: while the cache is over
max_size, pop the least recently used entry from the front. -/
def evictOldest (maxSize : Nat) : List CacheEntry → List CacheEntry
  | [] => []
  | e :: rest =>
      if rest.length + 1 > maxSize then evictOldest maxSize rest
      else e :: rest

/-- OptimizedCache.get: a hit whose entry is younger than ttl moves the
entry to the most-recently-used end and returns its value; an expired
entry is deleted; a miss returns nothing. -/
def OptimizedCache.get (c : OptimizedCache) (key : Nat) (now : ℚ) :
    Option Nat × OptimizedCache :=
  match c.entries.find? (fun e => e.1 == key) with
  | some e =>
      if now - e.2.2 < c.ttl then
        (some e.2.1,
         { c with entries := c.entries.eraseP (fun x => x.1 == key) ++ [e] })
      else
        (none, { c with entries := c.entries.eraseP (fun x => x.1 == key) })
  | none => (none, c)

/-- Access order just after OptimizedCache.set inserts the new entry and
before eviction runs: an existing binding of the key is removed, then the
new entry is appended at the most-recently-used end. -/
def OptimizedCache.pushMRU (c : OptimizedCache) (key value : Nat) (now : ℚ) :
    List CacheEntry :=
  (if c.entries.any (fun e => e.1 == key) then c.entries.eraseP (fun e => e.1 == key)
   else c.entries) ++ [(key, value, now)]

/-- OptimizedCache.set: insert or overwrite the key at the
most-recently-used end, then evict least-recently-used entries while the
cache exceeds max_size. -/
def OptimizedCache.set (c : OptimizedCache) (key value : Nat) (now : ℚ) :
    OptimizedCache :=
  { c with entries := evictOldest c.max_size (c.pushMRU key value now) }

/-- A cache operation together with the wall clock at which it runs. -/
inductive CacheOp where
  | get (key : Nat) (now : ℚ)
  | set (key value : Nat) (now : ℚ)
deriving DecidableEq

/-- Apply one cache operation to the cache state. -/
def applyCacheOp (c : OptimizedCache) : CacheOp → OptimizedCache
  | CacheOp.get k now => (c.get k now).2
  | CacheOp.set k v now => c.set k v now

/-- Run a finite sequence of cache operations. -/
def runCacheOps (c : OptimizedCache) (ops : List CacheOp) : OptimizedCache :=
  ops.foldl applyCacheOp c

/-! Connection pool, from client_optimized.py. -/

/-- A pooled connection together with its connection_stats record
(created_at, last_used, usage_count).  The health field stands for the
health score the connection object can report; ConnectionPool keeps it
alongside but get_connection never consults it. -/
structure PoolConnection where
  id : Nat
  dc_id : Nat
  health : ℚ
  created_at : ℚ
  last_used : ℚ
  usage_count : Nat
deriving DecidableEq

/-- ConnectionPool state: the configuration bounds and the active
connections in insertion order (a Python dict preserves insertion
order). -/
structure ConnectionPool where
  max_connections : Nat
  min_connections : Nat
  idle_timeout : ℚ
  active : List PoolConnection
deriving DecidableEq

/-- Result of ConnectionPool.get_connection: an existing connection was
reused, a new one was created, or the pool is saturated and the caller
polls for a released connection. -/
inductive AcquireResult where
  | reused (c : PoolConnection)
  | created (c : PoolConnection)
  | waitForAvailable
deriving DecidableEq

/-- Reuse eligibility tested by the scan in get_connection: same data
center and usage count below the reuse ceiling of 100. -/
def eligible (dc : Nat) (c : PoolConnection) : Bool :=
  c.dc_id == dc && decide (c.usage_count < 100)

/-- Stats update applied to a reused connection: stamp last_used and
increment usage_count. -/
def reuse_update (now : ℚ) (c : PoolConnection) : PoolConnection :=
  { c with last_used := now, usage_count := c.usage_count + 1 }

/-- ConnectionPool.get_connection: scan the active connections in
insertion order and reuse the first one for the same dc with usage below
100, updating its stats; otherwise create a new connection when under
max_connections; otherwise wait for a released connection. -/
def get_connection (p : ConnectionPool) (dc : Nat) (now : ℚ) (newId : Nat) :
    AcquireResult × ConnectionPool :=
  match p.active.find? (eligible dc) with
  | some c =>
      let c2 := reuse_update now c
      (AcquireResult.reused c2,
       { p with active := p.active.map (fun x => if x.id == c.id then c2 else x) })
  | none =>
      if p.active.length < p.max_connections then
        let c : PoolConnection :=
          { id := newId, dc_id := dc, health := 1,
            created_at := now, last_used := now, usage_count := 0 }
        (AcquireResult.created c, { p with active := p.active ++ [c] })
      else
        (AcquireResult.waitForAvailable, p)

/-- ConnectionPool.cleanup_idle_connections: first collect, over the
unchanged stats table, every connection whose idle time exceeds
idle_timeout while the pre-sweep active count exceeds min_connections;
then remove and close all collected connections. -/
def cleanup_idle_connections (p : ConnectionPool) (now : ℚ) : ConnectionPool :=
  let to_remove := (p.active.filter (fun c =>
    decide (now - c.last_used > p.idle_timeout) &&
    decide (p.active.length > p.min_connections))).map (fun c => c.id)
  { p with active := p.active.filter (fun c => !(to_remove.contains c.id)) }

/-! Connection health, from connection_optimized.py. -/

/-- OptimizedConnection state relevant to health scoring: the healthy
flag, the quality score, the consecutive error counter, timestamps and
the metric counters touched by the modelled events. -/
structure OptimizedConnection where
  is_healthy : Bool
  connection_quality : ℚ
  consecutive_errors : Nat
  last_error_time : ℚ
  last_activity : ℚ
  bytes_sent : Nat
  requests_count : Nat
  errors_count : Nat
  adaptive_timeout : ℚ
deriving DecidableEq

/-- OptimizedConnection.get_health_score: zero when unhealthy; otherwise
the quality minus the consecutive-error penalty (a tenth per error,
capped at a half) minus the staleness penalty (growing past 300 seconds
of inactivity, capped at three tenths), clamped to the unit interval. -/
def get_health_score (c : OptimizedConnection) (now : ℚ) : ℚ :=
  if !c.is_healthy then 0
  else
    let score := c.connection_quality
    let score :=
      if c.consecutive_errors > 0 then
        score - min (1 / 2) ((c.consecutive_errors : ℚ) * (1 / 10))
      else score
    let time_since_activity := now - c.last_activity
    let score :=
      if time_since_activity > 300 then
        score - min (3 / 10) ((time_since_activity - 300) / 1800)
      else score
    max 0 (min 1 score)

/-- OptimizedConnection._handle_connection_error: bump the error
counters, stamp the error time, decay the quality by the factor 0.8
floored at 0.1, and after more than two consecutive errors grow the
adaptive timeout by the factor 1.5 capped at 60. -/
def handle_connection_error (c : OptimizedConnection) (now : ℚ) : OptimizedConnection :=
  let c2 := { c with
    consecutive_errors := c.consecutive_errors + 1,
    last_error_time := now,
    errors_count := c.errors_count + 1,
    connection_quality := max (1 / 10) (c.connection_quality * (8 / 10)) }
  if c2.consecutive_errors > 2 then
    { c2 with adaptive_timeout := min 60 (c2.adaptive_timeout * (3 / 2)) }
  else c2

/-- Successful OptimizedConnection.send: update the byte and request
counters, stamp last_activity, and improve the quality by the factor
1.01 capped at 1. -/
def send_success (c : OptimizedConnection) (now : ℚ) (data_len : Nat) : OptimizedConnection :=
  { c with
    bytes_sent := c.bytes_sent + data_len,
    requests_count := c.requests_count + 1,
    last_activity := now,
    connection_quality := min 1 (c.connection_quality * (101 / 100)) }

/-! The xor primitive, from crypto_optimized.py. -/

/-- Big-endian value of a byte string, as computed by
int.from_bytes(a, big). -/
def bytesToNatBE : List Nat → Nat
  | [] => 0
  | b :: rest => b * 256 ^ rest.length + bytesToNatBE rest

/-- Big-endian encoding of a value into exactly n bytes, as computed by
int.to_bytes(v, n, big); to_bytes additionally demands v < 256 ^ n,
which is established separately for the values the xor path feeds in. -/
def natToBytesBE : Nat → Nat → List Nat
  | 0, _ => []
  | n + 1, v => v / 256 ^ n :: natToBytesBE n (v % 256 ^ n)

/-- Integer-based xor path taken for inputs of length at most 8. -/
def int_path_xor (a b : List Nat) : List Nat :=
  natToBytesBE a.length (bytesToNatBE a ^^^ bytesToNatBE b)

/-- Bytearray-based xor path taken for longer inputs. -/
def bytearray_path_xor (a b : List Nat) : List Nat :=
  List.zipWith (fun x y => x ^^^ y) a b

/-- The xor function of crypto_optimized.py: none models the ValueError
raised on operands of different lengths; otherwise inputs of length at
most 8 go through the integer path and longer inputs through the
bytearray path. -/
def xor (a b : List Nat) : Option (List Nat) :=
  if a.length ≠ b.length then none
  else if a.length ≤ 8 then some (int_path_xor a b)
  else some (bytearray_path_xor a b)


/-! Theorems. -/

/-- C1: a RequestBatch is ready to flush exactly when its request count
has reached max_size or its age (now minus creation time) has reached
max_wait. -/
theorem c1_batch_ready_iff (b : RequestBatch) (now : ℚ) :
    b.is_ready now = true ↔
      (b.max_size ≤ b.requests.length ∨ b.max_wait ≤ now - b.created_at) := by
  simp [RequestBatch.is_ready, ge_iff_le]

/-- C2: when the wire exchange for a batch raises an exception, every
member request whose future is still pending is failed with that same
exception, and every member future that was already completed keeps its
outcome; in particular no pending member is skipped or given a different
error. -/
theorem c2_batch_failure_propagates (b : RequestBatch) (e : BatchError) :
    ((process_batch b (ExchangeOutcome.raised e)).requests.length = b.requests.length)
    ∧ (∀ (i q : Nat), b.requests[i]? = some (q, FutureState.pending) →
        (process_batch b (ExchangeOutcome.raised e)).requests[i]? =
          some (q, FutureState.failed e))
    ∧ (∀ (i q : Nat) (s : FutureState), s ≠ FutureState.pending →
        b.requests[i]? = some (q, s) →
        (process_batch b (ExchangeOutcome.raised e)).requests[i]? = some (q, s)) := by
  unfold process_batch
  by_cases hemp : b.requests.isEmpty
  · have hnil : b.requests = [] := List.isEmpty_iff.mp hemp
    simp [hemp, hnil]
  · simp only [hemp, Bool.false_eq_true, if_false]
    refine ⟨by simp, ?_, ?_⟩
    · intro i q hq
      simp [List.getElem?_map, hq, failIfPending]
    · intro i q s hs hq
      simp only [List.getElem?_map, hq, Option.map_some]
      cases s with
      | pending => exact absurd rfl hs
      | resolved v => rfl
      | failed e2 => rfl

/-- C2 witness: in a two-request batch whose exchange raised exception 7,
the pending member is failed with exception 7 and the already-resolved
member keeps its result. -/
theorem c2_witness :
    (process_batch
      { max_size := 10, max_wait := 1 / 10,
        requests := [(5, FutureState.pending),
                     (6, FutureState.resolved (ExchangeResult.value 3))],
        created_at := 0 }
      (ExchangeOutcome.raised (BatchError.exc 7))).requests[0]? =
        some (5, FutureState.failed (BatchError.exc 7)) ∧
    (process_batch
      { max_size := 10, max_wait := 1 / 10,
        requests := [(5, FutureState.pending),
                     (6, FutureState.resolved (ExchangeResult.value 3))],
        created_at := 0 }
      (ExchangeOutcome.raised (BatchError.exc 7))).requests[1]? =
        some (6, FutureState.resolved (ExchangeResult.value 3)) := by
  constructor
  · exact (c2_batch_failure_propagates _ _).2.1 0 5 rfl
  · exact (c2_batch_failure_propagates _ _).2.2 1 6
      (FutureState.resolved (ExchangeResult.value 3)) (by simp) rfl

/-- C6: the idle sweep evaluates the min-connections guard against the
pre-sweep connection count while collecting, so with 3 active
connections, min_connections 2 and every connection idle past the
timeout, the sweep removes all three connections and leaves the pool
below min_connections (at zero). -/
theorem c6_cleanup_drops_below_min :
    let p : ConnectionPool :=
      { max_connections := 10, min_connections := 2, idle_timeout := 300,
        active := [ { id := 1, dc_id := 1, health := 1, created_at := 0,
                      last_used := 0, usage_count := 0 },
                    { id := 2, dc_id := 1, health := 1, created_at := 0,
                      last_used := 0, usage_count := 0 },
                    { id := 3, dc_id := 1, health := 1, created_at := 0,
                      last_used := 0, usage_count := 0 } ] }
    (∀ c ∈ p.active, (1000 : ℚ) - c.last_used > p.idle_timeout) ∧
    p.min_connections < p.active.length ∧
    (cleanup_idle_connections p 1000).active.length = 0 ∧
    (cleanup_idle_connections p 1000).active.length < p.min_connections := by
  refine ⟨?_, ?_, ?_, ?_⟩ <;> norm_num [cleanup_idle_connections]

/-- C5 counterexample: with two active connections for the same data
center, both under the reuse ceiling, the first one in insertion order
has health score 1/5 and the second 9/10; get_connection reuses the
first, not the one with the best health score. -/
theorem c5_counterexample :
    let c1 : PoolConnection :=
      { id := 1, dc_id := 1, health := 1 / 5, created_at := 0,
        last_used := 0, usage_count := 0 }
    let c2 : PoolConnection :=
      { id := 2, dc_id := 1, health := 9 / 10, created_at := 0,
        last_used := 0, usage_count := 0 }
    let p : ConnectionPool :=
      { max_connections := 10, min_connections := 2, idle_timeout := 300,
        active := [c1, c2] }
    eligible 1 c1 = true ∧ eligible 1 c2 = true ∧
    (get_connection p 1 0 99).1 = AcquireResult.reused (reuse_update 0 c1) ∧
    (reuse_update 0 c1).health < c2.health := by
  refine ⟨rfl, rfl, ?_, by norm_num [reuse_update]⟩
  norm_num [get_connection, List.find?, eligible, reuse_update]

/-- Helper: find? returns the element at the first index satisfying the
predicate. -/
theorem find?_eq_get_of_first {α : Type} (p : α → Bool) :
    ∀ (l : List α) (i : Nat) (hi : i < l.length),
      p (l.get ⟨i, hi⟩) = true →
      (∀ j (hj : j < i), p (l.get ⟨j, Nat.lt_trans hj hi⟩) = false) →
      l.find? p = some (l.get ⟨i, hi⟩)
  | x :: xs, 0, _, hp, _ => by
      simpa using List.find?_cons_of_pos xs (by simpa using hp)
  | x :: xs, i + 1, hi, hp, hfirst => by
      have hx : p x = false := hfirst 0 (Nat.succ_pos i)
      have ih := find?_eq_get_of_first p xs i (Nat.lt_of_succ_lt_succ hi) hp
        (fun j hj => hfirst (j + 1) (Nat.succ_lt_succ hj))
      rw [List.find?_cons_of_neg xs (by simp [hx])]
      simpa using ih

/-- C5 amended: when the scan finds its first active connection for the
requested data center with usage count below 100 at position i (every
earlier connection being ineligible), get_connection reuses exactly that
connection, stamping its last_used and incrementing its usage counter,
regardless of health scores. -/
theorem c5_first_eligible_reused (p : ConnectionPool) (dc : Nat) (now : ℚ)
    (newId : Nat) (i : Nat) (hi : i < p.active.length)
    (helig : eligible dc (p.active.get ⟨i, hi⟩) = true)
    (hfirst : ∀ j (hj : j < i),
      eligible dc (p.active.get ⟨j, Nat.lt_trans hj hi⟩) = false) :
    (get_connection p dc now newId).1 =
      AcquireResult.reused (reuse_update now (p.active.get ⟨i, hi⟩)) ∧
    (get_connection p dc now newId).2.active =
      p.active.map (fun x =>
        if x.id == (p.active.get ⟨i, hi⟩).id
        then reuse_update now (p.active.get ⟨i, hi⟩) else x) := by
  have hfind : p.active.find? (eligible dc) = some (p.active.get ⟨i, hi⟩) :=
    find?_eq_get_of_first (eligible dc) p.active i hi helig hfirst
  unfold get_connection
  rw [hfind]
  exact ⟨rfl, rfl⟩

/-- C5 amended witness: in the two-connection pool of the counterexample,
position 0 holds the first eligible connection and it is the one
reused. -/
theorem c5_witness :
    (get_connection
      { max_connections := 10, min_connections := 2, idle_timeout := 300,
        active := [ { id := 1, dc_id := 1, health := 1 / 5, created_at := 0,
                      last_used := 0, usage_count := 0 },
                    { id := 2, dc_id := 1, health := 9 / 10, created_at := 0,
                      last_used := 0, usage_count := 0 } ] }
      1 0 99).1 =
      AcquireResult.reused
        { id := 1, dc_id := 1, health := 1 / 5, created_at := 0,
          last_used := 0, usage_count := 1 } := by
  have h := (c5_first_eligible_reused
    { max_connections := 10, min_connections := 2, idle_timeout := 300,
      active := [ { id := 1, dc_id := 1, health := 1 / 5, created_at := 0,
                    last_used := 0, usage_count := 0 },
                  { id := 2, dc_id := 1, health := 9 / 10, created_at := 0,
                    last_used := 0, usage_count := 0 } ] }
    1 0 99 0 (by simp) rfl (fun j hj => absurd hj (Nat.not_lt_zero j))).1
  simpa [reuse_update] using h

/-- C8 counterexample: with four flood-wait signals already recorded
within the trailing five minutes, handling the next signal leaves the
adaptive timeout unchanged, because the code additionally requires the
history to hold more than five entries. -/
theorem c8_counterexample :
    let s : OptimizedSession :=
      { response_times := [], adaptive_wait_timeout := 30,
        flood_wait_history := [0, 0, 0, 0], flood_waits := 4,
        responses_received := 0, total_response_time := 0,
        avg_response_time := 0 }
    3 < (s.flood_wait_history.filter (fun ts => decide ((0 : ℚ) - ts < 300))).length ∧
    (handle_flood_wait s 0).adaptive_wait_timeout = 30 ∧
    s.adaptive_wait_timeout * (3 / 2) ≠ 30 := by
  refine ⟨by norm_num, ?_, by norm_num⟩
  norm_num [handle_flood_wait, pushBounded]

/-- C8 amended: handling a flood-wait signal multiplies the adaptive
timeout by 1.5 exactly when, after the new signal is recorded in the
bounded history (last 50 signals), the history holds more than 5 entries
and more than 3 of them fall within the trailing 5-minute window;
otherwise the timeout is unchanged. -/
theorem c8_flood_wait_amended (s : OptimizedSession) (now : ℚ) :
    (5 < (pushBounded 50 s.flood_wait_history now).length ∧
     3 < ((pushBounded 50 s.flood_wait_history now).filter
            (fun ts => decide (now - ts < 300))).length →
      (handle_flood_wait s now).adaptive_wait_timeout =
        s.adaptive_wait_timeout * (3 / 2)) ∧
    (¬ (5 < (pushBounded 50 s.flood_wait_history now).length ∧
        3 < ((pushBounded 50 s.flood_wait_history now).filter
               (fun ts => decide (now - ts < 300))).length) →
      (handle_flood_wait s now).adaptive_wait_timeout =
        s.adaptive_wait_timeout) := by
  constructor
  · rintro ⟨h1, h2⟩
    simp only [handle_flood_wait]
    rw [if_pos h1, if_pos h2]
  · intro h
    simp only [handle_flood_wait]
    by_cases h1 : 5 < (pushBounded 50 s.flood_wait_history now).length
    · have h2 : ¬ 3 < ((pushBounded 50 s.flood_wait_history now).filter
          (fun ts => decide (now - ts < 300))).length := fun hh => h ⟨h1, hh⟩
      rw [if_pos h1, if_neg h2]
    · rw [if_neg h1]

/-- C8 amended witness: with five prior signals in the window the sixth
signal does trigger the multiplication, and with four prior signals the
fifth does not. -/
theorem c8_witness :
    (handle_flood_wait
      { response_times := [], adaptive_wait_timeout := 30,
        flood_wait_history := [0, 0, 0, 0, 0], flood_waits := 5,
        responses_received := 0, total_response_time := 0,
        avg_response_time := 0 } 0).adaptive_wait_timeout = 30 * (3 / 2) ∧
    (handle_flood_wait
      { response_times := [], adaptive_wait_timeout := 30,
        flood_wait_history := [0, 0, 0, 0], flood_waits := 4,
        responses_received := 0, total_response_time := 0,
        avg_response_time := 0 } 0).adaptive_wait_timeout = 30 := by
  constructor
  · exact (c8_flood_wait_amended _ 0).1 (by norm_num [pushBounded])
  · exact (c8_flood_wait_amended _ 0).2 (by norm_num [pushBounded])


/-- Helper: the eviction loop drops exactly the least-recently-used
prefix, keeping the last maxSize entries. -/
theorem evictOldest_eq_drop (m : Nat) :
    ∀ l : List CacheEntry, evictOldest m l = l.drop (l.length - m)
  | [] => by simp [evictOldest]
  | e :: rest => by
      rw [evictOldest]
      by_cases h : rest.length + 1 > m
      · rw [if_pos h, evictOldest_eq_drop m rest]
        have h2 : (e :: rest).length - m = (rest.length - m) + 1 := by
          simp only [List.length_cons]; omega
        rw [h2, List.drop_succ_cons]
      · rw [if_neg h]
        have h2 : (e :: rest).length - m = 0 := by
          simp only [List.length_cons]; omega
        rw [h2, List.drop_zero]

/-- Helper: the eviction loop leaves at most maxSize entries. -/
theorem evictOldest_length_le (m : Nat) (l : List CacheEntry) :
    (evictOldest m l).length ≤ m := by
  rw [evictOldest_eq_drop, List.length_drop]
  omega

/-- Helper: when the keys are distinct, erasing the binding of a key
leaves no entry with that key. -/
theorem mem_eraseP_key_ne (k : Nat) :
    ∀ l : List CacheEntry, (l.map (fun e => e.1)).Nodup →
      ∀ e ∈ l.eraseP (fun x => x.1 == k), (e.1 == k) = false
  | [], _, e, he => by simp at he
  | x :: xs, hnodup, e, he => by
      rw [List.map_cons, List.nodup_cons] at hnodup
      by_cases hx : (x.1 == k) = true
      · rw [List.eraseP_cons_of_pos (p := fun x : CacheEntry => x.1 == k) hx] at he
        have hxk : x.1 = k := by simpa using hx
        have hmm : e.1 ∈ xs.map (fun e => e.1) := List.mem_map_of_mem _ he
        have hne : e.1 ≠ x.1 := fun hh => hnodup.1 (hh ▸ hmm)
        simpa [hxk] using hne
      · rw [List.eraseP_cons_of_neg (p := fun x : CacheEntry => x.1 == k) (by simpa using hx)] at he
        rcases List.mem_cons.mp he with rfl | he2
        · simpa using hx
        · exact mem_eraseP_key_ne k xs hnodup.2 e he2

/-- C3: after set(k, v) at time t0, a get(k) at any time t with
t - t0 still below the ttl returns v (given a well-formed cache with
distinct keys and a capacity of at least one entry). -/
theorem c3_cache_get_after_set (c : OptimizedCache) (k v : Nat) (t0 t : ℚ)
    (hnodup : (c.entries.map (fun e => e.1)).Nodup)
    (hmax : 1 ≤ c.max_size) (httl : t - t0 < c.ttl) :
    ((c.set k v t0).get k t).1 = some v := by
  have hbase_keys : ∀ e ∈ (if c.entries.any (fun e => e.1 == k)
      then c.entries.eraseP (fun e => e.1 == k) else c.entries),
      (e.1 == k) = false := by
    split
    · exact mem_eraseP_key_ne k c.entries hnodup
    · next hany =>
        intro e he
        have := List.any_eq_false.mp (Bool.eq_false_iff.mpr hany) e he
        simpa using this
  set base := (if c.entries.any (fun e => e.1 == k)
      then c.entries.eraseP (fun e => e.1 == k) else c.entries) with hbase
  have hset : (c.set k v t0).entries =
      base.drop (base.length + 1 - c.max_size) ++ [(k, v, t0)] := by
    show evictOldest c.max_size (c.pushMRU k v t0) = _
    rw [OptimizedCache.pushMRU, evictOldest_eq_drop]
    rw [← hbase]
    have hlen : (base ++ [(k, v, t0)]).length = base.length + 1 := by simp
    rw [hlen]
    exact List.drop_append_of_le_length (by omega)
  have hfind : ((c.set k v t0).entries).find? (fun e => e.1 == k) =
      some (k, v, t0) := by
    rw [hset, List.find?_append]
    have h1 : (base.drop (base.length + 1 - c.max_size)).find?
        (fun e => e.1 == k) = none := by
      rw [List.find?_eq_none]
      intro x hx
      simp [hbase_keys x (List.mem_of_mem_drop hx)]
    rw [h1]
    simp [List.find?]
  show ((c.set k v t0).get k t).1 = some v
  unfold OptimizedCache.get
  rw [hfind]
  simp only [OptimizedCache.set]
  rw [if_pos (by simpa using httl)]

/-- C3 witness: in an empty cache with capacity 2 and ttl 300, setting
key 5 to 7 at time 0 and reading it back at time 10 yields 7. -/
theorem c3_witness : (((mkCache 2 300).set 5 7 0).get 5 10).1 = some 7 :=
  c3_cache_get_after_set (mkCache 2 300) 5 7 0 10 (by simp [mkCache])
    (by norm_num [mkCache]) (by norm_num [mkCache])

/-- Helper: get never grows the entry list. -/
theorem get_entries_length_le (c : OptimizedCache) (k : Nat) (now : ℚ) :
    ((c.get k now).2).entries.length ≤ c.entries.length := by
  unfold OptimizedCache.get
  cases hf : c.entries.find? (fun e => e.1 == k) with
  | none => simp
  | some e =>
      have hmem := List.mem_of_find?_eq_some hf
      have hp := List.find?_some hf
      have hpos : 1 ≤ c.entries.length :=
        List.length_pos.mpr (List.ne_nil_of_mem hmem)
      dsimp only
      by_cases ht : now - e.2.2 < c.ttl
      · rw [if_pos ht]
        simp only [List.length_append, List.length_cons, List.length_nil]
        rw [List.length_eraseP_of_mem hmem hp]
        omega
      · rw [if_neg ht]
        exact List.length_eraseP_le c.entries

/-- Helper: get preserves the configured capacity. -/
theorem get_max_size_eq (c : OptimizedCache) (k : Nat) (now : ℚ) :
    ((c.get k now).2).max_size = c.max_size := by
  unfold OptimizedCache.get
  cases hf : c.entries.find? (fun e => e.1 == k) with
  | none => rfl
  | some e =>
      dsimp only
      by_cases ht : now - e.2.2 < c.ttl
      · rw [if_pos ht]
      · rw [if_neg ht]

/-- Helper: one cache operation keeps the size invariant and the
configured capacity. -/
theorem applyCacheOp_inv (c : OptimizedCache) (op : CacheOp)
    (h : c.entries.length ≤ c.max_size) :
    (applyCacheOp c op).entries.length ≤ (applyCacheOp c op).max_size ∧
    (applyCacheOp c op).max_size = c.max_size := by
  cases op with
  | get k now =>
      dsimp only [applyCacheOp]
      refine ⟨?_, get_max_size_eq c k now⟩
      rw [get_max_size_eq c k now]
      exact le_trans (get_entries_length_le c k now) h
  | set k v now =>
      exact ⟨evictOldest_length_le _ _, rfl⟩

/-- Helper: any operation sequence keeps the size invariant. -/
theorem runCacheOps_inv :
    ∀ (ops : List CacheOp) (c : OptimizedCache),
      c.entries.length ≤ c.max_size →
      (runCacheOps c ops).entries.length ≤ c.max_size
  | [], c, h => h
  | op :: ops, c, h => by
      have step := applyCacheOp_inv c op h
      have ih := runCacheOps_inv ops (applyCacheOp c op) step.1
      rw [step.2] at ih
      exact ih

/-- C4: starting from an empty cache, after any finite sequence of get
and set operations the cache holds at most max_size entries; moreover a
set keeps the whole access-ordered list when it fits, and otherwise
evicts exactly the least-recently-used prefix, keeping the max_size most
recently used entries. -/
theorem c4_cache_bounded_lru (max_size : Nat) (ttl : ℚ) (ops : List CacheOp)
    (c : OptimizedCache) (k v : Nat) (t : ℚ) :
    (runCacheOps (mkCache max_size ttl) ops).entries.length ≤ max_size
    ∧ ((c.pushMRU k v t).length ≤ c.max_size →
        (c.set k v t).entries = c.pushMRU k v t)
    ∧ (c.max_size < (c.pushMRU k v t).length →
        (c.set k v t).entries =
          (c.pushMRU k v t).drop ((c.pushMRU k v t).length - c.max_size)) := by
  refine ⟨?_, ?_, ?_⟩
  · exact runCacheOps_inv ops (mkCache max_size ttl) (by simp [mkCache])
  · intro h
    show evictOldest c.max_size (c.pushMRU k v t) = _
    rw [evictOldest_eq_drop]
    have : (c.pushMRU k v t).length - c.max_size = 0 := by omega
    rw [this, List.drop_zero]
  · intro _
    show evictOldest c.max_size (c.pushMRU k v t) = _
    rw [evictOldest_eq_drop]

/-- C4 witness: a set that fits keeps both entries in access order, and a
set overflowing a capacity-1 cache evicts exactly the least recently
used entry. -/
theorem c4_witness :
    (OptimizedCache.set { max_size := 2, ttl := 300, entries := [(1, 10, 0)] }
      2 20 1).entries = [(1, 10, 0), (2, 20, 1)] ∧
    (OptimizedCache.set { max_size := 1, ttl := 300, entries := [(1, 10, 0)] }
      2 20 1).entries = [(2, 20, 1)] := by
  constructor
  · have h := (c4_cache_bounded_lru 2 300 []
      { max_size := 2, ttl := 300, entries := [(1, 10, 0)] } 2 20 1).2.1
      (by norm_num [OptimizedCache.pushMRU])
    rw [h]
    norm_num [OptimizedCache.pushMRU]
  · have h := (c4_cache_bounded_lru 1 300 []
      { max_size := 1, ttl := 300, entries := [(1, 10, 0)] } 2 20 1).2.2
      (by norm_num [OptimizedCache.pushMRU])
    rw [h]
    norm_num [OptimizedCache.pushMRU]


/-- Helper: pushing onto a full bounded deque keeps exactly the last
maxlen elements of the underlying unbounded history. -/
theorem pushBounded_drop (m : Nat) (l : List ℚ) (x : ℚ) :
    pushBounded m (l.drop (l.length - m)) x =
      (l ++ [x]).drop ((l ++ [x]).length - m) := by
  by_cases hm : m = 0
  · subst hm
    simp [pushBounded]
  · by_cases h : l.length ≤ m
    · have h0 : l.length - m = 0 := by omega
      rw [h0, List.drop_zero]
      unfold pushBounded
      rfl
    · have hlen : (l.drop (l.length - m)).length = m := by
        rw [List.length_drop]; omega
      show (l.drop (l.length - m) ++ [x]).drop
          ((l.drop (l.length - m) ++ [x]).length - m) =
        (l ++ [x]).drop ((l ++ [x]).length - m)
      have h1 : (l.drop (l.length - m) ++ [x]).length - m = 1 := by
        rw [List.length_append, hlen]; simp
      rw [h1]
      have h2 : (l.drop (l.length - m) ++ [x]).drop 1 =
          (l.drop (l.length - m)).drop 1 ++ [x] :=
        List.drop_append_of_le_length (by omega)
      rw [h2, List.drop_drop]
      have h3 : (l ++ [x]).length - m = (l.length - m) + 1 := by
        rw [List.length_append]; simp; omega
      rw [h3]
      rw [List.drop_append_of_le_length (by omega)]

/-- Helper: folding the bounded deque push over a history keeps exactly
the last maxlen observations. -/
theorem foldl_pushBounded (m : Nat) :
    ∀ (obs l : List ℚ),
      obs.foldl (pushBounded m) (l.drop (l.length - m)) =
        (l ++ obs).drop ((l ++ obs).length - m)
  | [], l => by simp
  | x :: obs, l => by
      rw [List.foldl_cons, pushBounded_drop m l x]
      have ih := foldl_pushBounded m obs (l ++ [x])
      rw [ih]
      simp

/-- Helper: recording responses only touches the response_times window
through the bounded push. -/
theorem foldl_update_response_times (s : OptimizedSession) :
    ∀ obs : List ℚ,
      (obs.foldl update_response_metrics s).response_times =
        obs.foldl (pushBounded 100) s.response_times
  | [] => rfl
  | x :: obs => by
      rw [List.foldl_cons, List.foldl_cons]
      exact foldl_update_response_times (update_response_metrics s x) obs

/-- C7: after recording any non-empty sequence of response latencies into
a fresh session, the adaptive timeout computed before dispatch equals the
95th percentile of the last 100 observed latencies scaled by 3, floored
at the configured base timeout WAIT_TIMEOUT and capped at 120 seconds;
and the session window indeed holds exactly the last 100 observations. -/
theorem c7_adaptive_timeout (s : OptimizedSession) (obs : List ℚ)
    (hinit : s.response_times = []) (hne : obs ≠ []) :
    get_adaptive_timeout (obs.foldl update_response_metrics s) =
      spec_adaptive_timeout WAIT_TIMEOUT obs ∧
    (obs.foldl update_response_metrics s).response_times =
      obs.drop (obs.length - 100) := by
  have hwin : (obs.foldl update_response_metrics s).response_times =
      obs.drop (obs.length - 100) := by
    rw [foldl_update_response_times, hinit]
    have h := foldl_pushBounded 100 obs []
    simpa using h
  refine ⟨?_, hwin⟩
  have hlen : 0 < obs.length := List.length_pos.mpr hne
  have hwne : (obs.drop (obs.length - 100)).isEmpty = false := by
    rw [Bool.eq_false_iff]
    intro hh
    have := List.drop_eq_nil_iff.mp (List.isEmpty_iff.mp hh)
    omega
  unfold get_adaptive_timeout spec_adaptive_timeout
  rw [hwin, hwne, ADAPTIVE_TIMEOUT]
  rfl

/-- C7 witness: a fresh session that has observed the single latency 1
computes exactly the specification timeout for the history consisting of
that observation. -/
theorem c7_witness :
    get_adaptive_timeout ([(1 : ℚ)].foldl update_response_metrics
      { response_times := [], adaptive_wait_timeout := 30,
        flood_wait_history := [], flood_waits := 0, responses_received := 0,
        total_response_time := 0, avg_response_time := 0 }) =
      spec_adaptive_timeout WAIT_TIMEOUT [(1 : ℚ)] :=
  (c7_adaptive_timeout _ [(1 : ℚ)] rfl (by simp)).1


/-- Helper: closed form of the health score as quality minus the error
penalty minus the staleness penalty, clamped to the unit interval. -/
theorem get_health_score_eq (c : OptimizedConnection) (now : ℚ) :
    get_health_score c now =
      if !c.is_healthy then 0
      else
        max 0 (min 1 (c.connection_quality
          - (if c.consecutive_errors > 0
             then min (1 / 2) ((c.consecutive_errors : ℚ) * (1 / 10)) else 0)
          - (if now - c.last_activity > 300
             then min (3 / 10) ((now - c.last_activity - 300) / 1800) else 0))) := by
  unfold get_health_score
  by_cases h1 : c.is_healthy
  · by_cases h2 : c.consecutive_errors > 0 <;>
      by_cases h3 : now - c.last_activity > 300 <;>
        simp [h1, h2, h3]
  · simp [h1]

/-- Helper: clamping to the unit interval is monotone. -/
theorem clamp01_mono {a b : ℚ} (h : a ≤ b) :
    max 0 (min 1 a) ≤ max 0 (min 1 b) :=
  max_le_max (le_refl 0) (min_le_min (le_refl 1) h)

/-- Helper: the fields of the connection state after an error event. -/
theorem handle_connection_error_fields (c : OptimizedConnection) (now : ℚ) :
    (handle_connection_error c now).is_healthy = c.is_healthy ∧
    (handle_connection_error c now).connection_quality =
      max (1 / 10) (c.connection_quality * (8 / 10)) ∧
    (handle_connection_error c now).consecutive_errors =
      c.consecutive_errors + 1 ∧
    (handle_connection_error c now).last_activity = c.last_activity := by
  unfold handle_connection_error
  refine ⟨?_, ?_, ?_, ?_⟩ <;> (dsimp only; split <;> rfl)

/-- Helper: one error event cannot raise the health score (at a fixed
instant, for a quality at or above its floor of one tenth). -/
theorem health_error_step (c : OptimizedConnection) (now : ℚ)
    (hq1 : 1 / 10 ≤ c.connection_quality) :
    get_health_score (handle_connection_error c now) now ≤
      get_health_score c now := by
  obtain ⟨f1, f2, f3, f4⟩ := handle_connection_error_fields c now
  rw [get_health_score_eq, get_health_score_eq, f1, f2, f3, f4]
  cases hh : c.is_healthy with
  | false => simp
  | true =>
      simp only [Bool.not_true, Bool.false_eq_true, if_false]
      apply clamp01_mono
      have hqle : max (1 / 10) (c.connection_quality * (8 / 10)) ≤
          c.connection_quality := by
        apply max_le hq1
        nlinarith
      have hep : (if c.consecutive_errors > 0
          then min (1 / 2) ((c.consecutive_errors : ℚ) * (1 / 10)) else 0) ≤
          (if c.consecutive_errors + 1 > 0
          then min (1 / 2) (((c.consecutive_errors + 1 : ℕ) : ℚ) * (1 / 10))
          else 0) := by
        rw [if_pos (Nat.succ_pos c.consecutive_errors)]
        by_cases hce : c.consecutive_errors > 0
        · rw [if_pos hce]
          apply min_le_min (le_refl _)
          push_cast
          linarith
        · rw [if_neg hce]
          apply le_min
          · norm_num
          · positivity
      linarith

/-- Helper: one successful send cannot lower the health score (at a fixed
instant, for a quality within the unit interval). -/
theorem health_success_step (c : OptimizedConnection) (now : ℚ) (n : Nat)
    (hq0 : 0 ≤ c.connection_quality) (hq1 : c.connection_quality ≤ 1) :
    get_health_score c now ≤ get_health_score (send_success c now n) now := by
  rw [get_health_score_eq, get_health_score_eq]
  simp only [send_success]
  cases hh : c.is_healthy with
  | false => simp
  | true =>
      simp only [Bool.not_true, Bool.false_eq_true, if_false]
      have hap0 : ¬ (now - now > 300) := by norm_num
      rw [if_neg hap0]
      apply clamp01_mono
      have hqle : c.connection_quality ≤
          min 1 (c.connection_quality * (101 / 100)) := by
        apply le_min hq1
        nlinarith
      have hap : (0 : ℚ) ≤ (if now - c.last_activity > 300
          then min (3 / 10) ((now - c.last_activity - 300) / 1800) else 0) := by
        by_cases h3 : now - c.last_activity > 300
        · rw [if_pos h3]
          apply le_min
          · norm_num
          · linarith
        · rw [if_neg h3]
      linarith

/-- Helper: an error event keeps the quality within its floor and cap. -/
theorem error_quality_inv (c : OptimizedConnection) (now : ℚ)
    (h1 : 1 / 10 ≤ c.connection_quality) (h2 : c.connection_quality ≤ 1) :
    1 / 10 ≤ (handle_connection_error c now).connection_quality ∧
    (handle_connection_error c now).connection_quality ≤ 1 := by
  rw [(handle_connection_error_fields c now).2.1]
  constructor
  · exact le_max_left _ _
  · apply max_le
    · norm_num
    · nlinarith

/-- Helper: a successful send keeps the quality within its floor and
cap. -/
theorem success_quality_inv (c : OptimizedConnection) (now : ℚ) (n : Nat)
    (h1 : 1 / 10 ≤ c.connection_quality) :
    1 / 10 ≤ (send_success c now n).connection_quality ∧
    (send_success c now n).connection_quality ≤ 1 := by
  simp only [send_success]
  constructor
  · apply le_min
    · norm_num
    · nlinarith
  · exact min_le_left _ _

/-- Helper: the quality bounds hold at every iterate of the error
event. -/
theorem error_iter_inv (c : OptimizedConnection) (now : ℚ)
    (h1 : 1 / 10 ≤ c.connection_quality) (h2 : c.connection_quality ≤ 1) :
    ∀ n : Nat,
      1 / 10 ≤ ((fun x => handle_connection_error x now)^[n] c).connection_quality ∧
      ((fun x => handle_connection_error x now)^[n] c).connection_quality ≤ 1
  | 0 => ⟨h1, h2⟩
  | n + 1 => by
      rw [Function.iterate_succ_apply']
      have ih := error_iter_inv c now h1 h2 n
      exact error_quality_inv _ now ih.1 ih.2

/-- Helper: the quality bounds hold at every iterate of the success
event. -/
theorem success_iter_inv (c : OptimizedConnection) (now : ℚ) (len : Nat)
    (h1 : 1 / 10 ≤ c.connection_quality) (h2 : c.connection_quality ≤ 1) :
    ∀ n : Nat,
      1 / 10 ≤ ((fun x => send_success x now len)^[n] c).connection_quality ∧
      ((fun x => send_success x now len)^[n] c).connection_quality ≤ 1
  | 0 => ⟨h1, h2⟩
  | n + 1 => by
      rw [Function.iterate_succ_apply']
      have ih := success_iter_inv c now len h1 h2 n
      exact success_quality_inv _ now len ih.1

/-- C9: the health score always lies in the unit interval; at a fixed
instant, across any run of consecutive error events with no intervening
successes it is monotonically non-increasing, and across any run of
consecutive successful sends with no intervening errors it is
monotonically non-decreasing (for a connection whose quality satisfies
its maintained bounds, one tenth to one). -/
theorem c9_health_score_monotone (c : OptimizedConnection) (now : ℚ) :
    (0 ≤ get_health_score c now ∧ get_health_score c now ≤ 1)
    ∧ (1 / 10 ≤ c.connection_quality → c.connection_quality ≤ 1 →
        ∀ n : Nat,
          get_health_score ((fun x => handle_connection_error x now)^[n + 1] c) now ≤
            get_health_score ((fun x => handle_connection_error x now)^[n] c) now)
    ∧ (1 / 10 ≤ c.connection_quality → c.connection_quality ≤ 1 →
        ∀ len n : Nat,
          get_health_score ((fun x => send_success x now len)^[n] c) now ≤
            get_health_score ((fun x => send_success x now len)^[n + 1] c) now) := by
  refine ⟨⟨?_, ?_⟩, ?_, ?_⟩
  · rw [get_health_score_eq]
    split
    · exact le_refl 0
    · exact le_max_left _ _
  · rw [get_health_score_eq]
    split
    · norm_num
    · exact max_le (by norm_num) (min_le_left _ _)
  · intro hq1 hq2 n
    rw [Function.iterate_succ_apply']
    exact health_error_step _ now (error_iter_inv c now hq1 hq2 n).1
  · intro hq1 hq2 len n
    rw [Function.iterate_succ_apply']
    have inv := success_iter_inv c now len hq1 hq2 n
    exact health_success_step _ now len (le_trans (by norm_num) inv.1) inv.2

/-- C9 witness: starting from a fresh healthy connection with quality 1,
the first error event does not raise the health score and the first
successful send does not lower it. -/
theorem c9_witness :
    get_health_score ((fun x => handle_connection_error x 0)^[1]
      { is_healthy := true, connection_quality := 1, consecutive_errors := 0,
        last_error_time := 0, last_activity := 0, bytes_sent := 0,
        requests_count := 0, errors_count := 0, adaptive_timeout := 15 }) 0 ≤
      get_health_score ((fun x => handle_connection_error x 0)^[0]
      { is_healthy := true, connection_quality := 1, consecutive_errors := 0,
        last_error_time := 0, last_activity := 0, bytes_sent := 0,
        requests_count := 0, errors_count := 0, adaptive_timeout := 15 }) 0 ∧
    get_health_score ((fun x => send_success x 0 5)^[0]
      { is_healthy := true, connection_quality := 1, consecutive_errors := 0,
        last_error_time := 0, last_activity := 0, bytes_sent := 0,
        requests_count := 0, errors_count := 0, adaptive_timeout := 15 }) 0 ≤
      get_health_score ((fun x => send_success x 0 5)^[1]
      { is_healthy := true, connection_quality := 1, consecutive_errors := 0,
        last_error_time := 0, last_activity := 0, bytes_sent := 0,
        requests_count := 0, errors_count := 0, adaptive_timeout := 15 }) 0 := by
  constructor
  · exact (c9_health_score_monotone _ 0).2.1 (by norm_num) (by norm_num) 0
  · exact (c9_health_score_monotone _ 0).2.2 (by norm_num) (by norm_num) 5 0


/-- Helper: the big-endian value of a byte string is bounded by 256 to
the power of its length. -/
theorem bytesToNatBE_lt :
    ∀ l : List Nat, (∀ x ∈ l, x < 256) → bytesToNatBE l < 256 ^ l.length
  | [], _ => by simp [bytesToNatBE]
  | b :: rest, h => by
      have hb : b < 256 := h b (List.mem_cons_self b rest)
      have ih := bytesToNatBE_lt rest (fun x hx => h x (List.mem_cons_of_mem _ hx))
      simp only [bytesToNatBE, List.length_cons]
      calc b * 256 ^ rest.length + bytesToNatBE rest
          < b * 256 ^ rest.length + 256 ^ rest.length := by omega
        _ = (b + 1) * 256 ^ rest.length := by ring
        _ ≤ 256 * 256 ^ rest.length := Nat.mul_le_mul_right _ hb
        _ = 256 ^ (rest.length + 1) := by ring

/-- Helper: xor splits across a high part shifted by a power of two and
a bounded low part. -/
theorem xor_mul_pow_add (x y p q m : Nat) (hp : p < 2 ^ m) (hq : q < 2 ^ m) :
    (2 ^ m * x + p) ^^^ (2 ^ m * y + q) =
      2 ^ m * (x ^^^ y) + (p ^^^ q) := by
  have hpq : p ^^^ q < 2 ^ m := Nat.xor_lt_two_pow hp hq
  apply Nat.eq_of_testBit_eq
  intro j
  rw [Nat.testBit_xor, Nat.testBit_mul_pow_two_add x hp j,
      Nat.testBit_mul_pow_two_add y hq j,
      Nat.testBit_mul_pow_two_add (x ^^^ y) hpq j]
  by_cases hj : j < m
  · simp [hj, Nat.testBit_xor]
  · simp [hj, Nat.testBit_xor]

/-- Helper: 256 to a power as a power of two. -/
theorem pow256_eq (k : Nat) : (256 : Nat) ^ k = 2 ^ (8 * k) := by
  rw [Nat.pow_mul]

/-- Helper: the integer path of the xor function (big-endian decode, xor,
re-encode at the same length) computes the bytewise xor, for byte
strings of equal length. -/
theorem int_path_eq_zipWith :
    ∀ a b : List Nat, a.length = b.length →
      (∀ x ∈ a, x < 256) → (∀ x ∈ b, x < 256) →
      natToBytesBE a.length (bytesToNatBE a ^^^ bytesToNatBE b) =
        List.zipWith (fun x y => x ^^^ y) a b
  | [], [], _, _, _ => rfl
  | [], y :: ys, h, _, _ => by simp at h
  | x :: xs, [], h, _, _ => by simp at h
  | x :: xs, y :: ys, h, ha, hb => by
      have hlen : xs.length = ys.length := by simpa using h
      have hxsb : ∀ z ∈ xs, z < 256 := fun z hz => ha z (List.mem_cons_of_mem _ hz)
      have hysb : ∀ z ∈ ys, z < 256 := fun z hz => hb z (List.mem_cons_of_mem _ hz)
      have hNx : bytesToNatBE xs < 2 ^ (8 * xs.length) := by
        rw [← pow256_eq]; exact bytesToNatBE_lt xs hxsb
      have hNy : bytesToNatBE ys < 2 ^ (8 * xs.length) := by
        rw [← pow256_eq, hlen]; exact bytesToNatBE_lt ys hysb
      have hW : bytesToNatBE xs ^^^ bytesToNatBE ys < 2 ^ (8 * xs.length) :=
        Nat.xor_lt_two_pow hNx hNy
      simp only [bytesToNatBE, List.length_cons, List.zipWith_cons_cons]
      rw [← hlen, pow256_eq, Nat.mul_comm x, Nat.mul_comm y,
        xor_mul_pow_add x y _ _ _ hNx hNy]
      simp only [natToBytesBE]
      rw [pow256_eq]
      have hhead : (2 ^ (8 * xs.length) * (x ^^^ y)
          + (bytesToNatBE xs ^^^ bytesToNatBE ys)) / 2 ^ (8 * xs.length) =
          x ^^^ y := by
        rw [Nat.mul_add_div (Nat.pos_pow_of_pos _ (by norm_num))]
        rw [Nat.div_eq_of_lt hW, Nat.add_zero]
      have htail : (2 ^ (8 * xs.length) * (x ^^^ y)
          + (bytesToNatBE xs ^^^ bytesToNatBE ys)) % 2 ^ (8 * xs.length) =
          bytesToNatBE xs ^^^ bytesToNatBE ys := by
        rw [Nat.mul_add_mod, Nat.mod_eq_of_lt hW]
      rw [hhead, htail]
      have ih := int_path_eq_zipWith xs ys hlen hxsb hysb
      rw [ih]

/-- C10: the xor of crypto_optimized.py fails (ValueError) exactly when
the operand lengths differ; on equal lengths it returns the bytewise
exclusive-or, the integer-based path used for short inputs agrees with
the bytearray path used for long inputs, and the intermediate xor value
always fits in the output width demanded by int.to_bytes. -/
theorem c10_xor_correct (a b : List Nat)
    (ha : ∀ x ∈ a, x < 256) (hb : ∀ x ∈ b, x < 256) :
    (xor a b = none ↔ a.length ≠ b.length)
    ∧ (a.length = b.length →
        xor a b = some (List.zipWith (fun x y => x ^^^ y) a b))
    ∧ (a.length = b.length → int_path_xor a b = bytearray_path_xor a b)
    ∧ (a.length = b.length →
        bytesToNatBE a ^^^ bytesToNatBE b < 256 ^ a.length) := by
  have hmain : a.length = b.length → int_path_xor a b = bytearray_path_xor a b :=
    fun h => int_path_eq_zipWith a b h ha hb
  refine ⟨?_, ?_, hmain, ?_⟩
  · unfold xor
    by_cases h : a.length = b.length
    · simp only [h, ne_eq, not_true_eq_false, if_false]
      constructor
      · intro hc
        exfalso
        revert hc
        split <;> simp
      · intro hc
        exact hc.elim
    · simp [h]
  · intro h
    unfold xor
    rw [if_neg (fun hh => hh h)]
    by_cases h8 : a.length ≤ 8
    · rw [if_pos h8, hmain h]
      rfl
    · rw [if_neg h8]
      rfl
  · intro h
    rw [pow256_eq]
    refine Nat.xor_lt_two_pow ?_ ?_
    · rw [← pow256_eq]
      exact bytesToNatBE_lt a ha
    · rw [← pow256_eq, h]
      exact bytesToNatBE_lt b hb

/-- C10 witness: xor of the two-byte strings 01 02 and ff 04 is fe 06,
and xor of strings of different lengths fails. -/
theorem c10_witness :
    xor [1, 2] [255, 4] = some [254, 6] ∧ xor [1] [2, 3] = none := by
  constructor
  · have h := (c10_xor_correct [1, 2] [255, 4] (by decide) (by decide)).2.1 rfl
    rw [h]
    rfl
  · exact ((c10_xor_correct [1] [2, 3] (by decide) (by decide)).1).mpr (by decide)

end Pyro
